import Mathlib

/-!
Verification of `src/fill_in_the_blank.js` (collaborative fill-in-the-blanks,
p5.js + Firebase Realtime DB).  The JavaScript source is shallowly embedded:
pure functions become Lean functions on `List Char` / `String`, the DOM and
Firebase state becomes explicit state records, `Math.random` and network
fetches become oracle parameters, and timers become explicit event lists.
-/

namespace FillInTheBlank

/-! ### Constants (top of the source file) -/

def LINES : Nat := 30
def BLANKS_PER_LINE : Nat := 3
def NOUNS_PER_LINE : Nat := 10

def TOTAL_NOUNS_NEEDED : Nat := LINES * NOUNS_PER_LINE

/-- Source: `Math.min(600, Math.ceil(TOTAL_NOUNS_NEEDED * 1.6))`;
`ceil (n * 1.6) = (16*n + 9) / 10` in integer arithmetic. -/
def TARGET_POOL_SIZE : Nat := min 600 ((TOTAL_NOUNS_NEEDED * 16 + 9) / 10)

def MAX_REQUESTS : Nat := 60
def BATCH_SIZE : Nat := 5

/-- The `STOPWORDS` set from the source (a JS `Set` of strings). -/
def STOPWORDS : List String := [
  "the","a","an","and","or","but","if","then","else","when","while","for","to","of","in","on","at","by",
  "with","from","as","that","this","these","those","it","its","is","are","was","were","be","been","being",
  "has","have","had","do","does","did","can","could","may","might","must","shall","should","will","would",
  "i","you","he","she","they","we","me","him","her","them","us","my","your","his","their","our","mine","yours","hers","theirs","ours",
  "also","such","other","more","most","some","any","each","many","few","several","which","who","whom","whose","what","where","why","how",
  "than","into","over","under","about","after","before","between","during","without","within","per","via","vs","etc",
  "january","february","march","april","may","june","july","august","september","october","november","december",
  "monday","tuesday","wednesday","thursday","friday","saturday","sunday",
  "km","mi","ft","m","cm","mm","km2","m2","pm","am"]

/-! ### JS primitives used by the tokenizer -/

/-- The character class of the JS regex `\s` (whitespace). -/
def isJsWs (c : Char) : Bool :=
  c = ' ' || c = '\t' || c = '\n' || c = '\r' ||
  c = Char.ofNat 0x0b || c = Char.ofNat 0x0c || c = Char.ofNat 0xa0 ||
  c = Char.ofNat 0x1680 || (0x2000 ≤ c.toNat && c.toNat ≤ 0x200a) ||
  c = Char.ofNat 0x2028 || c = Char.ofNat 0x2029 || c = Char.ofNat 0x202f ||
  c = Char.ofNat 0x205f || c = Char.ofNat 0x3000 || c = Char.ofNat 0xfeff

/-- Source: `.replace(/[^a-z\-\s]/g, ' ')` applied per character (after
`toLowerCase`): anything that is not a lowercase ASCII letter, a hyphen or
whitespace becomes a space. -/
def normChar (c : Char) : Char :=
  if ('a' ≤ c && c ≤ 'z') || c = '-' || isJsWs c then c else ' '

/-- Source: `.split(/\s+/)` — split into maximal runs of non-whitespace
characters.  (A leading-empty-string artifact of the JS split is dropped
here; it is removed anyway by the `length >= 3` filter that follows.) -/
def splitWsAux : List Char → List Char → List (List Char)
  | [], acc => if acc.isEmpty then [] else [acc.reverse]
  | c :: rest, acc =>
      if isJsWs c then
        if acc.isEmpty then splitWsAux rest []
        else acc.reverse :: splitWsAux rest []
      else splitWsAux rest (c :: acc)

def splitWs (l : List Char) : List (List Char) := splitWsAux l []

/-- Source: `/^-|-$/.test(w)` — leading or trailing hyphen. -/
def hyphenEdge (w : String) : Bool :=
  w.data.head? = some '-' || w.data.getLast? = some '-'

/-- Source: `w.includes('--')`. -/
def hasDoubleHyphen : List Char → Bool
  | [] => false
  | [_] => false
  | a :: b :: rest => (a = '-' && b = '-') || hasDoubleHyphen (b :: rest)

/-- Source: `w.endsWith('ing')` / `w.endsWith('thing')`. -/
def endsWithChars (suffix : List Char) (w : String) : Bool :=
  List.isSuffixOf suffix w.data

/-! ### extractCandidateNounsFromText -/

/-- The `words` pipeline of `extractCandidateNounsFromText` followed by the
gerund filter: lowercase, strip non-letter/hyphen chars, split on whitespace,
length bounds [3,24], stop-word removal, hyphen-edge and double-hyphen
removal, then drop `...ing` words unless they end in `thing`. -/
def candidateWords (text : String) : List String :=
  let words := (splitWs ((text.data.map Char.toLower).map normChar)).map
      (fun run => String.mk run)
  let filtered := ((((words.filter
      (fun w => 3 ≤ w.data.length && w.data.length ≤ 24)).filter
      (fun w => !STOPWORDS.contains w)).filter
      (fun w => !hyphenEdge w)).filter
      (fun w => !hasDoubleHyphen w.data))
  filtered.filter (fun w => !endsWithChars ['i','n','g'] w ||
      endsWithChars ['t','h','i','n','g'] w)

/-- JS `Array.from(new Set(candidates))`: deduplicate keeping the first
occurrence of each element, in first-seen order. -/
def firstSeenDedupAux : List String → List String → List String
  | _, [] => []
  | seen, w :: ws =>
      if w ∈ seen then firstSeenDedupAux seen ws
      else w :: firstSeenDedupAux (w :: seen) ws

def firstSeenDedup (l : List String) : List String := firstSeenDedupAux [] l

/-- Stable insertion (descending by `f`): an element is placed before the
first existing element of strictly-or-equally smaller key, so earlier
elements win ties — the semantics of JS's (stable) `Array.prototype.sort`
with comparator `(a, b) => f(b) - f(a)`. -/
def insertByFreqDesc (f : String → Nat) (x : String) : List String → List String
  | [] => [x]
  | y :: ys => if f y ≤ f x then x :: y :: ys else y :: insertByFreqDesc f x ys

def sortByFreqDesc (f : String → Nat) : List String → List String
  | [] => []
  | x :: xs => insertByFreqDesc f x (sortByFreqDesc f xs)

/-- In-document frequency: the `freq` map of the source
(`freq.get(w) || 0` is the number of occurrences of `w` in `candidates`). -/
def candFreq (text : String) (w : String) : Nat := (candidateWords text).count w

/-- `extractCandidateNounsFromText(text)`: `if (!text) return []`, then the
filter pipeline, then `Array.from(new Set(candidates)).sort((a, b) =>
(freq.get(b) || 0) - (freq.get(a) || 0))`. -/
def extractCandidateNounsFromText (text : String) : List String :=
  if text = "" then []
  else sortByFreqDesc (candFreq text) (firstSeenDedup (candidateWords text))

/-! ### buildWikipediaNounPool

Network fetches are modelled by an oracle `Nat → Option String`: request
number `k` either fails (`none`, covering rejected fetches and missing
`extract` fields — `fetchWikipediaRandomSummary().catch(() => null)`) or
yields the page's `extract` text. -/

/-- JS `Set.prototype.add` on a set represented as its insertion-ordered
element list. -/
def setAdd (pool : List String) (w : String) : List String :=
  if w ∈ pool then pool else pool ++ [w]

/-- The inner loop of `buildWikipediaNounPool`:
`for (const w of words) { pool.add(w); if (pool.size >= targetSize) break; }`. -/
def addWordsUpTo (target : Nat) : List String → List String → List String
  | pool, [] => pool
  | pool, w :: ws =>
      let p := setAdd pool w
      if target ≤ p.length then p else addWordsUpTo target p ws

/-- Processing of one batch's settled results:
`for (const r of results) { if (!r || !r.extract) continue; ...; if (pool.size >= targetSize) break; }`. -/
def processResults (target : Nat) : List String → List (Option String) → List String
  | pool, [] => pool
  | pool, r :: rs =>
      match r with
      | none => processResults target pool rs
      | some ext =>
          if ext = "" then processResults target pool rs
          else
            let p := addWordsUpTo target pool (extractCandidateNounsFromText ext)
            if target ≤ p.length then p else processResults target p rs

/-- The `while (pool.size < targetSize && requestsMade < MAX_REQUESTS)` loop.
The `fuel` argument only bounds the number of iterations so the recursion is
structural: every iteration increases `requestsMade` by `batch ≥ 1`, so the
invariant `MAX_REQUESTS - requestsMade ≤ fuel` is maintained, and when
`fuel = 0` the guard `requestsMade < MAX_REQUESTS` is false as well, making
the `fuel = 0` branch coincide with the loop's own exit. -/
def buildLoop (oracle : Nat → Option String) (target : Nat) :
    Nat → List String → Nat → List String × Nat
  | 0, pool, requestsMade => (pool, requestsMade)
  | fuel + 1, pool, requestsMade =>
      if pool.length < target ∧ requestsMade < MAX_REQUESTS then
        let batch := min BATCH_SIZE (MAX_REQUESTS - requestsMade)
        let results := (List.range batch).map (fun j => oracle (requestsMade + j))
        buildLoop oracle target fuel (processResults target pool results)
          (requestsMade + batch)
      else (pool, requestsMade)

/-- `buildWikipediaNounPool(targetSize)`: starts from the empty pool with no
requests made; returns the final pool together with the total number of fetch
attempts issued. -/
def buildWikipediaNounPool (oracle : Nat → Option String) (targetSize : Nat) :
    List String × Nat :=
  buildLoop oracle targetSize MAX_REQUESTS [] 0

/-! ### Pool sampling with randomness oracle (`pickUniqueRandom`, `renderAllNounRows`)

`Math.floor(Math.random() * arr.length)` is modelled by an oracle giving the
chosen index for each try; theorems assume the oracle is in range, which the
JS expression guarantees for a non-empty array. -/

/-- `pickUniqueRandom(arr, count, exclude)`: the
`while (chosen.length < count && tries < count * 30)` loop.  `chosen` and
`seen` accumulate; recursion is structural on the remaining tries
`count * 30 - tries`, with `tries = count * 30 - rem`. -/
def pickLoop (arr : List String) (count : Nat) (rand : Nat → Nat) :
    Nat → List String → List String → List String
  | 0, chosen, _ => chosen
  | rem + 1, chosen, seen =>
      if chosen.length < count then
        let tries := count * 30 - (rem + 1)
        let w := arr.getD (rand tries) ""
        if w ∈ seen then pickLoop arr count rand rem chosen seen
        else pickLoop arr count rand rem (chosen ++ [w]) (seen ++ [w])
      else chosen

/-- `pickUniqueRandom(arr, count, exclude)`: `seen` starts as a copy of
`exclude` (`new Set(exclude)`), `chosen` starts empty. -/
def pickUniqueRandom (arr : List String) (count : Nat) (exclude : List String)
    (rand : Nat → Nat) : List String :=
  pickLoop arr count rand (count * 30) [] exclude

/-- The cap-trim inside `renderAllNounRows`:
`if (rollingExclude.size > 300) { for (const w of Array.from(rollingExclude).slice(0, 120)) rollingExclude.delete(w); }`. -/
def trimExclude (s : List String) : List String :=
  if 300 < s.length then (s.take 120).foldl (fun t w => t.erase w) s else s

/-- The `for (let i = 0; i < LINES; i++)` loop of `renderAllNounRows`,
returning the suggestion list drawn for each line; `n` counts the lines still
to render and `i = LINES - n` is the current line index (used only to index
the randomness oracle). -/
def renderRows (arr : List String) (rand : Nat → Nat → Nat) :
    Nat → List String → List (List String)
  | 0, _ => []
  | n + 1, rollingExclude =>
      let i := LINES - (n + 1)
      let list := pickUniqueRandom arr NOUNS_PER_LINE rollingExclude (rand i)
      list :: renderRows arr rand n
        (trimExclude (list.foldl setAdd rollingExclude))

/-- `renderAllNounRows(poolArray)` with a per-line randomness oracle. -/
def renderAllNounRows (poolArray : List String) (rand : Nat → Nat → Nat) :
    List (List String) :=
  renderRows poolArray rand LINES []

/-! ### Decimal rendering, `stamp` and the download filename

JS `String(n)` / template interpolation of a number is modelled by
`natToDecAux`; the `fuel` argument (`n + 1` at every call site) only makes
the recursion on `n / 10` structural and is never exhausted, since a number
has at most `n + 1` decimal digits. -/

def digitChar (d : Nat) : Char := Char.ofNat (48 + d)

def natToDecAux : Nat → Nat → List Char
  | 0, _ => []
  | fuel + 1, n =>
      if n < 10 then [digitChar n]
      else natToDecAux fuel (n / 10) ++ [digitChar (n % 10)]

def natToDec (n : Nat) : String := String.mk (natToDecAux (n + 1) n)

/-- Source: `const pad = n => String(n).padStart(2, '0')`. -/
def pad2Chars (n : Nat) : List Char :=
  let s := natToDecAux (n + 1) n
  if s.length < 2 then '0' :: s else s

/-- A JS `Date`'s accessor values: `month` is `getMonth()` (0-based). -/
structure JsDate where
  year : Nat
  month : Nat
  day : Nat
  hours : Nat
  minutes : Nat
  seconds : Nat

/-- Accessor ranges guaranteed by a JS `Date` (years restricted to four
digits, which holds for every timestamp between the years 1000 and 9999). -/
def ValidDate (d : JsDate) : Prop :=
  1000 ≤ d.year ∧ d.year ≤ 9999 ∧ d.month ≤ 11 ∧ 1 ≤ d.day ∧ d.day ≤ 31 ∧
    d.hours ≤ 23 ∧ d.minutes ≤ 59 ∧ d.seconds ≤ 59

/-- `stamp()`: `${year}${pad(month+1)}${pad(day)}-${pad(hours)}${pad(minutes)}${pad(seconds)}`. -/
def stampChars (d : JsDate) : List Char :=
  natToDecAux (d.year + 1) d.year ++ pad2Chars (d.month + 1) ++ pad2Chars d.day
    ++ ['-'] ++ pad2Chars d.hours ++ pad2Chars d.minutes ++ pad2Chars d.seconds

def stamp (d : JsDate) : String := String.mk (stampChars d)

/-- The download filename of `onSave`: `fill-in-blanks-${stamp()}.txt`. -/
def saveFilenameChars (d : JsDate) : List Char :=
  "fill-in-blanks-".data ++ stampChars d ++ ".txt".data

def saveFilename (d : JsDate) : String := String.mk (saveFilenameChars d)

/-! ### Field Sync Engine state -/

/-- The local DOM/page state the sync engine touches: `inputs i b` is
`some v` when the input element `inputs[i][b]` exists and displays `v`
(`none` when no binding exists at those indices), and `focused` records which
bound input, if any, is `document.activeElement`.  Indices are integers
because JS array indexing accepts any number (out-of-range and negative
access just yields `undefined`). -/
structure SyncState where
  inputs : Int → Int → Option String
  focused : Option (Int × Int)

/-- One field's remote payload `{value, editedBy, updatedAt}`; only `value`
is read by `applyRemote`, and it may be absent (`none`). -/
structure RemoteData where
  value : Option String

/-- A Firebase snapshot: `snap.key` (a string) and `snap.val()` (`none` for
a null payload). -/
structure Snap where
  key : String
  val : Option RemoteData

def digitVal? (c : Char) : Option Nat :=
  if '0' ≤ c ∧ c ≤ '9' then some (c.toNat - 48) else none

def parseDigitsAux : List Char → Nat → Nat
  | [], acc => acc
  | c :: rest, acc =>
      match digitVal? c with
      | some d => parseDigitsAux rest (acc * 10 + d)
      | none => acc

/-- The maximal leading digit run, `none` when the first character is not a
digit. -/
def parseDigits : List Char → Option Nat
  | [] => none
  | c :: rest =>
      match digitVal? c with
      | some d => some (parseDigitsAux rest d)
      | none => none

/-- JS `parseInt(s, 10)`: skip leading whitespace, optional sign, then the
maximal digit prefix; `none` models `NaN`. -/
def jsParseInt (s : String) : Option Int :=
  match s.data.dropWhile (fun c => isJsWs c) with
  | '-' :: rest => (parseDigits rest).map (fun n => -(n : Int))
  | '+' :: rest => (parseDigits rest).map (fun n => (n : Int))
  | cs => (parseDigits cs).map (fun n => (n : Int))

/-- JS `x || ''` on an optional string. -/
def jsOrEmpty : Option String → String
  | some s => if s = "" then "" else s
  | none => ""

/-- `applyRemote(lineIdx, snap)`: bail out when the key is not numeric, the
payload is null, or no input is bound at `(lineIdx, blankIdx)`; otherwise
write `data.value || ''` into the input unless it is the active element. -/
def applyRemote (st : SyncState) (lineIdx : Int) (snap : Snap) : SyncState :=
  match jsParseInt snap.key, snap.val with
  | some blankIdx, some data =>
      if (st.inputs lineIdx blankIdx).isSome then
        if st.focused = some (lineIdx, blankIdx) then st
        else { st with inputs := fun i b =>
                 if i = lineIdx ∧ b = blankIdx then some (jsOrEmpty data.value)
                 else st.inputs i b }
      else st
  | _, _ => st

/-- A pending write to the remote store (`db.ref(path).set({...})`). -/
structure WriteOp where
  path : String
  value : String
  editedBy : String
  updatedAt : Nat

/-- `pathFor(lineIdx, blankIdx)` = `blanks/${lineIdx}/${blankIdx}`. -/
def pathFor (lineIdx blankIdx : Nat) : String :=
  "blanks/" ++ natToDec lineIdx ++ "/" ++ natToDec blankIdx

/-- `writeBlank(lineIdx, blankIdx, value)`: `if (!window.db) return;` then a
fire-and-forget `set`.  The function never touches the local state, so it
returns it unchanged together with the writes it issued. -/
def writeBlank (db : Option Unit) (st : SyncState) (lineIdx blankIdx : Nat)
    (value : String) (cid : String) (now : Nat) : SyncState × List WriteOp :=
  match db with
  | none => (st, [])
  | some _ => (st, [⟨pathFor lineIdx blankIdx, value, cid, now⟩])

/-- A listener registration made by `attachLineListener` (`child_added` or
`child_changed` on `blanks/${lineIdx}`). -/
structure Listener where
  lineIdx : Nat
  event : String

/-- `attachLineListener(lineIdx)`: `if (!window.db) return;` then two `on`
registrations; local state is untouched. -/
def attachLineListener (db : Option Unit) (st : SyncState) (lineIdx : Nat) :
    SyncState × List Listener :=
  match db with
  | none => (st, [])
  | some _ => (st, [⟨lineIdx, "child_added"⟩, ⟨lineIdx, "child_changed"⟩])

/-- The local-clear loop of `onReset`: for every `i < LINES`,
`b < BLANKS_PER_LINE` with a bound input, set its value to the empty
string. -/
def clearAllInputs (st : SyncState) : SyncState :=
  { st with inputs := fun i b =>
      if 0 ≤ i ∧ i < (LINES : Int) ∧ 0 ≤ b ∧ b < (BLANKS_PER_LINE : Int) ∧
          (st.inputs i b).isSome
      then some "" else st.inputs i b }

/-- `onReset()`: after the `confirm` dialog, clear all inputs locally, then
(when a store is bound) await the batched `update`; `remoteOk` tells whether
that batch resolved or rejected.  The returned string is the status message
set at the end (`catch` only reports — the local clear is not rolled back). -/
def onReset (st : SyncState) (db : Option Unit) (remoteOk : Bool)
    (confirmed : Bool) : SyncState × String :=
  if !confirmed then (st, "")
  else
    let st' := clearAllInputs st
    match db with
    | none => (st', "All blanks reset.")
    | some _ =>
        if remoteOk then (st', "All blanks reset.")
        else (st', "Reset failed. Check console.")

/-! ### Debounce

`debounce(fn, ms)` keeps one pending timer; each call clears it and arms a
new one `ms` in the future.  An edit sequence is a list of
(arrival time, value) pairs in arrival order; the model walks it with the
pending timer as state, emitting the timer's value whenever its deadline has
passed before the next call re-arms it, and flushing the final pending timer
once the sequence ends. -/

def debounceStep (ms : Nat) : Option (Nat × String) → List (Nat × String) → List String
  | none, [] => []
  | some (_, v), [] => [v]
  | none, (t, v) :: rest => debounceStep ms (some (t + ms, v)) rest
  | some (d, pv), (t, v) :: rest =>
      if d ≤ t then pv :: debounceStep ms (some (t + ms, v)) rest
      else debounceStep ms (some (t + ms, v)) rest

/-- The writes emitted by one field's debounced input handler
(`debounce(e => writeBlank(...), 250)` in `addBlank`) over a full edit
sequence. -/
def debounceRun (ms : Nat) (events : List (Nat × String)) : List String :=
  debounceStep ms none events

/-- The quiescence window used by `addBlank`. -/
def DEBOUNCE_MS : Nat := 250

/-! ### Compose and export -/

/-- Source: `.replace(/\s+/g, ' ')` — every maximal whitespace run becomes a
single space.  Implemented one character at a time: a whitespace character
directly followed by another whitespace character is dropped (it is not the
run's last), and any remaining whitespace character becomes `' '`.  The
character class is the same JS `\s` as in the tokenizer. -/
def collapseWs : List Char → List Char
  | [] => []
  | [c] => if isJsWs c then [' '] else [c]
  | a :: b :: rest =>
      if isJsWs a && isJsWs b then collapseWs (b :: rest)
      else (if isJsWs a then ' ' else a) :: collapseWs (b :: rest)

def trimWs (l : List Char) : List Char :=
  ((l.dropWhile isJsWs).reverse.dropWhile isJsWs).reverse

/-- `parts.join(' ').replace(/\s+/g, ' ').trim()` on a parts list. -/
def joinNormalize (parts : List String) : String :=
  String.mk (trimWs (collapseWs (String.intercalate " " parts).data))

/-- The static segments array: `[`Line ${i+1}: Before`, 'then', 'and then',
'finally']`. -/
def segments (i : Nat) : List String :=
  ["Line " ++ natToDec (i + 1) ++ ": Before", "then", "and then", "finally"]

/-- `valueAt(i, b)` = `inputs?.[i]?.[b]?.elt?.value || ''`. -/
def valueAt (st : SyncState) (i b : Nat) : String :=
  jsOrEmpty (st.inputs (i : Int) (b : Int))

/-- `composeLine(i)`: the line's four static segments interleaved with its
three field values, joined with spaces, whitespace-collapsed and trimmed. -/
def composeLine (st : SyncState) (i : Nat) : String :=
  joinNormalize [(segments i).getD 0 "", valueAt st i 0,
    (segments i).getD 1 "", valueAt st i 1,
    (segments i).getD 2 "", valueAt st i 2,
    (segments i).getD 3 ""]

/-! ### Theorems -/

theorem buildLoop_requests_le (oracle : Nat → Option String) (target : Nat) :
    ∀ (fuel : Nat) (pool : List String) (requestsMade : Nat),
      requestsMade ≤ MAX_REQUESTS →
      (buildLoop oracle target fuel pool requestsMade).2 ≤ MAX_REQUESTS := by
  intro fuel
  induction fuel with
  | zero => intro pool r h; exact h
  | succ n ih =>
      intro pool r h
      simp only [buildLoop]
      by_cases hc : pool.length < target ∧ r < MAX_REQUESTS
      · rw [if_pos hc]
        apply ih
        have : min BATCH_SIZE (MAX_REQUESTS - r) ≤ MAX_REQUESTS - r :=
          Nat.min_le_right _ _
        omega
      · rw [if_neg hc]; exact h

theorem buildLoop_stops_at_target (oracle : Nat → Option String) (target : Nat)
    (fuel : Nat) (pool : List String) (requestsMade : Nat)
    (h : target ≤ pool.length) :
    buildLoop oracle target fuel pool requestsMade = (pool, requestsMade) := by
  cases fuel with
  | zero => rfl
  | succ n =>
      simp only [buildLoop]
      rw [if_neg]
      intro hc
      exact absurd h (Nat.not_le.mpr hc.1)

/-- C2. The pool build issues at most `MAX_REQUESTS` fetch attempts in total;
it stops issuing further rounds as soon as the pool has reached the target
size; and a failed fetch contributes zero tokens without aborting the
processing of the rest of its batch. -/
theorem buildWikipediaNounPool_budget :
    (∀ (oracle : Nat → Option String) (targetSize : Nat),
      (buildWikipediaNounPool oracle targetSize).2 ≤ MAX_REQUESTS) ∧
    (∀ (oracle : Nat → Option String) (target fuel : Nat) (pool : List String)
      (requestsMade : Nat), target ≤ pool.length →
      buildLoop oracle target fuel pool requestsMade = (pool, requestsMade)) ∧
    (∀ (target : Nat) (pool : List String) (rs : List (Option String)),
      processResults target pool (none :: rs) = processResults target pool rs) := by
  refine ⟨?_, ?_, ?_⟩
  · intro oracle targetSize
    exact buildLoop_requests_le oracle targetSize MAX_REQUESTS [] 0 (Nat.zero_le _)
  · intro oracle target fuel pool r h
    exact buildLoop_stops_at_target oracle target fuel pool r h
  · intro target pool rs
    rfl

/-- Witness for C2: with a pool of one word and target 1 the loop returns
immediately, making no requests beyond the seven already counted. -/
theorem buildWikipediaNounPool_budget_witness :
    1 ≤ ([("apple" : String)] : List String).length ∧
    buildLoop (fun _ => none) 1 9 [("apple" : String)] 7 = ([("apple" : String)], 7) :=
  ⟨by decide, buildWikipediaNounPool_budget.2.1 (fun _ => none) 1 9 ["apple"] 7 (by decide)⟩

/-! ### Lemmas about dedup and the stable sort -/

theorem firstSeenDedupAux_not_mem_seen :
    ∀ (l seen : List String) (w : String),
      w ∈ firstSeenDedupAux seen l → w ∉ seen := by
  intro l
  induction l with
  | nil => intro seen w h; simp [firstSeenDedupAux] at h
  | cons x xs ih =>
      intro seen w h
      simp only [firstSeenDedupAux] at h
      by_cases hx : x ∈ seen
      · rw [if_pos hx] at h
        exact ih seen w h
      · rw [if_neg hx] at h
        rcases List.mem_cons.mp h with rfl | h2
        · exact hx
        · intro hw
          exact ih (x :: seen) w h2 (List.mem_cons_of_mem _ hw)

theorem firstSeenDedupAux_nodup :
    ∀ (l seen : List String), (firstSeenDedupAux seen l).Nodup := by
  intro l
  induction l with
  | nil => intro seen; simp [firstSeenDedupAux]
  | cons x xs ih =>
      intro seen
      simp only [firstSeenDedupAux]
      by_cases hx : x ∈ seen
      · rw [if_pos hx]; exact ih seen
      · rw [if_neg hx]
        refine List.nodup_cons.mpr ⟨?_, ih (x :: seen)⟩
        intro hmem
        exact firstSeenDedupAux_not_mem_seen xs (x :: seen) x hmem (List.mem_cons_self x seen)

theorem firstSeenDedup_nodup (l : List String) : (firstSeenDedup l).Nodup :=
  firstSeenDedupAux_nodup l []

theorem insertByFreqDesc_perm (f : String → Nat) (x : String) :
    ∀ l : List String, List.Perm (insertByFreqDesc f x l) (x :: l) := by
  intro l
  induction l with
  | nil => simp [insertByFreqDesc]
  | cons y ys ih =>
      simp only [insertByFreqDesc]
      by_cases h : f y ≤ f x
      · rw [if_pos h]
      · rw [if_neg h]
        exact (ih.cons y).trans (List.Perm.swap x y ys)

theorem insertByFreqDesc_pairwise (f : String → Nat) (x : String) :
    ∀ l : List String, l.Pairwise (fun a b => f b ≤ f a) →
      (insertByFreqDesc f x l).Pairwise (fun a b => f b ≤ f a) := by
  intro l
  induction l with
  | nil => intro _; simp [insertByFreqDesc]
  | cons y ys ih =>
      intro hp
      rw [List.pairwise_cons] at hp
      simp only [insertByFreqDesc]
      by_cases h : f y ≤ f x
      · rw [if_pos h]
        refine List.pairwise_cons.mpr ⟨?_, List.pairwise_cons.mpr hp⟩
        intro z hz
        rcases List.mem_cons.mp hz with rfl | hz
        · exact h
        · exact le_trans (hp.1 z hz) h
      · rw [if_neg h]
        refine List.pairwise_cons.mpr ⟨?_, ih hp.2⟩
        intro z hz
        have hz' := (insertByFreqDesc_perm f x ys).mem_iff.mp hz
        rcases List.mem_cons.mp hz' with rfl | hz'
        · exact le_of_lt (lt_of_not_le h)
        · exact hp.1 z hz'

theorem sortByFreqDesc_perm (f : String → Nat) :
    ∀ l : List String, List.Perm (sortByFreqDesc f l) l := by
  intro l
  induction l with
  | nil => simp [sortByFreqDesc]
  | cons x xs ih =>
      exact (insertByFreqDesc_perm f x _).trans (ih.cons x)

theorem sortByFreqDesc_pairwise (f : String → Nat) :
    ∀ l : List String, (sortByFreqDesc f l).Pairwise (fun a b => f b ≤ f a) := by
  intro l
  induction l with
  | nil => simp [sortByFreqDesc]
  | cons x xs ih => exact insertByFreqDesc_pairwise f x _ ih

/-- C1. `extractCandidateNounsFromText` is a deterministic pure function whose
output is always duplicate-free and ordered by descending in-document
frequency; on the example text the stop-words and gerunds are dropped,
`something` survives the `thing` exception, and the result is
`["cats", "dogs", "something"]`. -/
theorem extractCandidateNouns_spec :
    (∀ text : String, (extractCandidateNounsFromText text).Nodup ∧
      (extractCandidateNounsFromText text).Pairwise
        (fun a b => candFreq text b ≤ candFreq text a)) ∧
    extractCandidateNounsFromText
        "The cats and dogs are running and jumping, something amazing" =
      ["cats", "dogs", "something"] := by
  constructor
  · intro text
    by_cases h : text = ""
    · simp [extractCandidateNounsFromText, h]
    · constructor
      · rw [extractCandidateNounsFromText, if_neg h]
        exact ((sortByFreqDesc_perm _ _).nodup_iff).mpr
          (firstSeenDedup_nodup (candidateWords text))
      · rw [extractCandidateNounsFromText, if_neg h]
        exact sortByFreqDesc_pairwise _ _
  · decide

/-! ### applyRemote -/

theorem applyRemote_eq_of_parse_none (st : SyncState) (lineIdx : Int) (snap : Snap)
    (h : jsParseInt snap.key = none) : applyRemote st lineIdx snap = st := by
  simp [applyRemote, h]

theorem applyRemote_eq_of_val_none (st : SyncState) (lineIdx : Int) (snap : Snap)
    (h : snap.val = none) : applyRemote st lineIdx snap = st := by
  cases hk : jsParseInt snap.key <;> simp [applyRemote, hk, h]

theorem applyRemote_eq_of_unbound (st : SyncState) (lineIdx : Int) (snap : Snap)
    (blankIdx : Int) (hk : jsParseInt snap.key = some blankIdx)
    (hb : st.inputs lineIdx blankIdx = none) :
    applyRemote st lineIdx snap = st := by
  cases hv : snap.val with
  | none => exact applyRemote_eq_of_val_none st lineIdx snap hv
  | some data => simp [applyRemote, hk, hv, hb]

theorem applyRemote_applies (st : SyncState) (lineIdx : Int) (snap : Snap)
    (blankIdx : Int) (data : RemoteData)
    (hk : jsParseInt snap.key = some blankIdx) (hv : snap.val = some data)
    (hb : (st.inputs lineIdx blankIdx).isSome)
    (hf : st.focused ≠ some (lineIdx, blankIdx)) :
    (applyRemote st lineIdx snap).inputs lineIdx blankIdx =
      some (jsOrEmpty data.value) := by
  simp only [applyRemote, hk, hv]
  rw [if_pos hb, if_neg hf]
  simp

/-- C3. A remote notification never alters the value of the field that
currently holds input focus, and when the addressed field is not focused the
notification's value (`data.value || ''`) is applied to it. -/
theorem applyRemote_focus_protection :
    (∀ (st : SyncState) (lineIdx : Int) (snap : Snap) (i b : Int),
        st.focused = some (i, b) →
        (applyRemote st lineIdx snap).inputs i b = st.inputs i b) ∧
    (∀ (st : SyncState) (lineIdx : Int) (snap : Snap) (blankIdx : Int)
        (data : RemoteData),
        jsParseInt snap.key = some blankIdx → snap.val = some data →
        (st.inputs lineIdx blankIdx).isSome →
        st.focused ≠ some (lineIdx, blankIdx) →
        (applyRemote st lineIdx snap).inputs lineIdx blankIdx =
          some (jsOrEmpty data.value)) := by
  constructor
  · intro st lineIdx snap i b hf
    cases hk : jsParseInt snap.key with
    | none => rw [applyRemote_eq_of_parse_none st lineIdx snap hk]
    | some blankIdx =>
        cases hv : snap.val with
        | none => rw [applyRemote_eq_of_val_none st lineIdx snap hv]
        | some data =>
            simp only [applyRemote, hk, hv]
            by_cases hb : (st.inputs lineIdx blankIdx).isSome
            · rw [if_pos hb]
              by_cases hfoc : st.focused = some (lineIdx, blankIdx)
              · rw [if_pos hfoc]
              · rw [if_neg hfoc]
                simp only
                rw [if_neg]
                intro hib
                apply hfoc
                rw [hf, hib.1, hib.2]
            · rw [if_neg hb]
  · exact fun st lineIdx snap blankIdx data hk hv hb hf =>
      applyRemote_applies st lineIdx snap blankIdx data hk hv hb hf

/-- Witness for C3 at a concrete state: line 0 / blank 1 is focused and
holds `"x"`; the notification for it is dropped, while the same notification
applies once blank 1 of line 0 is no longer focused. -/
theorem applyRemote_focus_protection_witness :
    ((⟨fun i b => if i = 0 ∧ b = 1 then some "x" else none,
        some (0, 1)⟩ : SyncState).focused = some (0, 1) ∧
      (applyRemote ⟨fun i b => if i = 0 ∧ b = 1 then some "x" else none,
        some (0, 1)⟩ 0 ⟨"1", some ⟨some "hello"⟩⟩).inputs 0 1 =
        (⟨fun i b => if i = 0 ∧ b = 1 then some "x" else none,
          some (0, 1)⟩ : SyncState).inputs 0 1) ∧
    (applyRemote ⟨fun i b => if i = 0 ∧ b = 1 then some "x" else none,
        none⟩ 0 ⟨"1", some ⟨some "hello"⟩⟩).inputs 0 1 =
      some (jsOrEmpty (some "hello")) :=
  ⟨⟨rfl, applyRemote_focus_protection.1
      ⟨fun i b => if i = 0 ∧ b = 1 then some "x" else none, some (0, 1)⟩
      0 ⟨"1", some ⟨some "hello"⟩⟩ 0 1 rfl⟩,
    applyRemote_focus_protection.2
      ⟨fun i b => if i = 0 ∧ b = 1 then some "x" else none, none⟩
      0 ⟨"1", some ⟨some "hello"⟩⟩ 1 ⟨some "hello"⟩ (by decide) rfl
      (by decide) (by decide)⟩

/-- C10. `applyRemote` leaves the state unchanged when the snapshot key is
not numeric, when the payload is null, and when no input is bound at the
addressed indices; and a bound, unfocused field whose payload lacks a
`value` is set to the empty string (`data.value || ''`), never to an
undefined value. -/
theorem applyRemote_guards :
    (∀ (st : SyncState) (lineIdx : Int) (snap : Snap),
        jsParseInt snap.key = none → applyRemote st lineIdx snap = st) ∧
    (∀ (st : SyncState) (lineIdx : Int) (snap : Snap),
        snap.val = none → applyRemote st lineIdx snap = st) ∧
    (∀ (st : SyncState) (lineIdx : Int) (snap : Snap) (blankIdx : Int),
        jsParseInt snap.key = some blankIdx →
        st.inputs lineIdx blankIdx = none →
        applyRemote st lineIdx snap = st) ∧
    (∀ (st : SyncState) (lineIdx : Int) (snap : Snap) (blankIdx : Int)
        (data : RemoteData),
        jsParseInt snap.key = some blankIdx → snap.val = some data →
        data.value = none → (st.inputs lineIdx blankIdx).isSome →
        st.focused ≠ some (lineIdx, blankIdx) →
        (applyRemote st lineIdx snap).inputs lineIdx blankIdx = some "") := by
  refine ⟨applyRemote_eq_of_parse_none, applyRemote_eq_of_val_none,
    applyRemote_eq_of_unbound, ?_⟩
  intro st lineIdx snap blankIdx data hk hv hval hb hf
  rw [applyRemote_applies st lineIdx snap blankIdx data hk hv hb hf, hval]
  rfl

/-- Witness for C10: a non-numeric key, a null payload, an unbound index and
a value-less payload on an unfocused bound field, all at concrete states. -/
theorem applyRemote_guards_witness :
    (jsParseInt "abc" = none ∧
      applyRemote ⟨fun _ _ => some "v", none⟩ 0 ⟨"abc", some ⟨some "y"⟩⟩ =
        ⟨fun _ _ => some "v", none⟩) ∧
    (applyRemote ⟨fun _ _ => some "v", none⟩ 0 ⟨"1", none⟩ =
      ⟨fun _ _ => some "v", none⟩) ∧
    (applyRemote ⟨fun _ _ => none, none⟩ 0 ⟨"1", some ⟨some "y"⟩⟩ =
      ⟨fun _ _ => none, none⟩) ∧
    (applyRemote ⟨fun _ _ => some "v", none⟩ 0 ⟨"1", some ⟨none⟩⟩).inputs 0 1 =
      some "" :=
  ⟨⟨by decide, applyRemote_guards.1 ⟨fun _ _ => some "v", none⟩ 0
      ⟨"abc", some ⟨some "y"⟩⟩ (by decide)⟩,
    applyRemote_guards.2.1 ⟨fun _ _ => some "v", none⟩ 0 ⟨"1", none⟩ rfl,
    applyRemote_guards.2.2.1 ⟨fun _ _ => none, none⟩ 0 ⟨"1", some ⟨some "y"⟩⟩ 1
      (by decide) rfl,
    applyRemote_guards.2.2.2 ⟨fun _ _ => some "v", none⟩ 0 ⟨"1", some ⟨none⟩⟩ 1
      ⟨none⟩ (by decide) rfl rfl (by decide) (by decide)⟩

/-! ### onReset -/

/-- C4. Once confirmed, `onReset` leaves every bound field of the 30×3 grid
holding the empty string, whatever the store binding and whether the batched
remote update resolved or rejected: the local clear is unconditional and is
not rolled back on remote failure. -/
theorem onReset_clears_locally :
    ∀ (st : SyncState) (db : Option Unit) (remoteOk : Bool) (i b : Int),
      0 ≤ i → i < (LINES : Int) → 0 ≤ b → b < (BLANKS_PER_LINE : Int) →
      (st.inputs i b).isSome →
      ((onReset st db remoteOk true).1).inputs i b = some "" := by
  intro st db remoteOk i b h0 h1 h2 h3 h4
  have hres : (onReset st db remoteOk true).1 = clearAllInputs st := by
    cases db with
    | none => rfl
    | some u => cases remoteOk <;> rfl
  rw [hres]
  simp only [clearAllInputs]
  rw [if_pos ⟨h0, h1, h2, h3, h4⟩]

/-- Witness for C4: a fully-bound grid holding `"v"` everywhere, with a store
bound and a rejecting batch update: field (0, 2) still ends empty. -/
theorem onReset_clears_locally_witness :
    (0 : Int) ≤ 0 ∧ (0 : Int) < (LINES : Int) ∧ (0 : Int) ≤ 2 ∧
      (2 : Int) < (BLANKS_PER_LINE : Int) ∧
      (((⟨fun _ _ => some "v", none⟩ : SyncState).inputs 0 2).isSome ∧
        ((onReset ⟨fun _ _ => some "v", none⟩ (some ()) false true).1).inputs 0 2 =
          some "") :=
  ⟨by decide, by decide, by decide, by decide, by decide,
    onReset_clears_locally ⟨fun _ _ => some "v", none⟩ (some ()) false 0 2
      (by decide) (by decide) (by decide) (by decide) (by decide)⟩

/-! ### Local-only mode -/

/-- C8. With no store binding (`window.db` absent), writing a field and
subscribing to a line's change notifications are silent no-ops: no write is
issued, no listener is registered, and the local state is returned
untouched. -/
theorem remote_noops_without_db :
    ∀ (st : SyncState) (lineIdx blankIdx : Nat) (value cid : String) (now : Nat),
      writeBlank none st lineIdx blankIdx value cid now = (st, []) ∧
      attachLineListener none st lineIdx = (st, []) :=
  fun _ _ _ _ _ _ => ⟨rfl, rfl⟩

/-! ### Debounce coalescing -/

theorem debounceStep_drop (ms d : Nat) (pv : String) (t : Nat) (v : String)
    (rest : List (Nat × String)) (h : t < d) :
    debounceStep ms (some (d, pv)) ((t, v) :: rest) =
      debounceStep ms none ((t, v) :: rest) := by
  simp only [debounceStep]
  rw [if_neg (Nat.not_le.mpr h)]

theorem debounceRun_last (ms : Nat) :
    ∀ (events : List (Nat × String)) (e : Nat × String),
      (e :: events).Chain' (fun a b => a.1 ≤ b.1 ∧ b.1 < a.1 + ms) →
      debounceRun ms (e :: events) = [((e :: events).getLastD e).2] := by
  intro events
  induction events with
  | nil =>
      intro e _
      obtain ⟨t, v⟩ := e
      rfl
  | cons e2 rest ih =>
      intro e h
      obtain ⟨t1, v1⟩ := e
      obtain ⟨t2, v2⟩ := e2
      have hR := (List.chain'_cons.mp h).1
      have htail := (List.chain'_cons.mp h).2
      have step1 : debounceRun ms ((t1, v1) :: (t2, v2) :: rest) =
          debounceStep ms (some (t1 + ms, v1)) ((t2, v2) :: rest) := rfl
      rw [step1, debounceStep_drop ms (t1 + ms) v1 t2 v2 rest hR.2]
      have step2 : debounceStep ms none ((t2, v2) :: rest) =
          debounceRun ms ((t2, v2) :: rest) := rfl
      rw [step2, ih (t2, v2) htail]
      rw [List.getLastD_cons, List.getLastD_cons, List.getLastD_cons]

/-- C5. For a sequence of edits to one field, each arriving in order and
strictly within the 250 ms quiescence window of the previous one, the
debounced handler fires exactly once, carrying the last value: intermediate
values are coalesced and never emitted. -/
theorem debounce_coalesces :
    ∀ (events : List (Nat × String)) (e : Nat × String),
      (e :: events).Chain' (fun a b => a.1 ≤ b.1 ∧ b.1 < a.1 + DEBOUNCE_MS) →
      debounceRun DEBOUNCE_MS (e :: events) = [((e :: events).getLastD e).2] :=
  fun events e h => debounceRun_last DEBOUNCE_MS events e h

/-- Witness for C5: three keystrokes 100 ms apart produce the single write
`"abc"`. -/
theorem debounce_coalesces_witness :
    (((0, "a") :: [((100 : Nat), "ab"), (200, "abc")]).Chain'
        (fun a b => a.1 ≤ b.1 ∧ b.1 < a.1 + DEBOUNCE_MS)) ∧
      debounceRun DEBOUNCE_MS [(0, "a"), (100, "ab"), (200, "abc")] =
        [("abc" : String)] :=
  ⟨by norm_num [List.chain'_cons, DEBOUNCE_MS],
    Eq.trans (debounce_coalesces [((100 : Nat), "ab"), (200, "abc")] (0, "a")
      (by norm_num [List.chain'_cons, DEBOUNCE_MS])) (by decide)⟩

/-! ### Decimal digits, `stamp` and the filename -/

theorem digitChar_isDigit (d : Nat) (h : d < 10) : (digitChar d).isDigit = true := by
  interval_cases d <;> decide

theorem isDigit_ne_colon (c : Char) (h : c.isDigit = true) : c ≠ ':' := by
  intro rfl_eq
  subst rfl_eq
  exact absurd h (by decide)

theorem natToDecAux_digits :
    ∀ (fuel n : Nat), ∀ c ∈ natToDecAux fuel n, c.isDigit = true := by
  intro fuel
  induction fuel with
  | zero => intro n c hc; simp [natToDecAux] at hc
  | succ f ih =>
      intro n c hc
      simp only [natToDecAux] at hc
      by_cases h : n < 10
      · rw [if_pos h] at hc
        rcases List.mem_singleton.mp hc with rfl
        exact digitChar_isDigit n h
      · rw [if_neg h] at hc
        rcases List.mem_append.mp hc with h1 | h1
        · exact ih (n / 10) c h1
        · rcases List.mem_singleton.mp h1 with rfl
          exact digitChar_isDigit (n % 10) (Nat.mod_lt n (by omega))

theorem pad2Chars_digits (n : Nat) : ∀ c ∈ pad2Chars n, c.isDigit = true := by
  intro c hc
  simp only [pad2Chars] at hc
  by_cases h : (natToDecAux (n + 1) n).length < 2
  · rw [if_pos h] at hc
    rcases List.mem_cons.mp hc with rfl | h1
    · decide
    · exact natToDecAux_digits (n + 1) n c h1
  · rw [if_neg h] at hc
    exact natToDecAux_digits (n + 1) n c hc

theorem natToDecAux_single (fuel n : Nat) (h : n < 10) :
    natToDecAux (fuel + 1) n = [digitChar n] := by
  simp [natToDecAux, h]

theorem natToDecAux_len1 (fuel n : Nat) (hf : 1 ≤ fuel) (h : n < 10) :
    (natToDecAux fuel n).length = 1 := by
  obtain ⟨f, rfl⟩ : ∃ f, fuel = f + 1 := ⟨fuel - 1, by omega⟩
  rw [natToDecAux_single f n h]
  rfl

theorem natToDecAux_succ (fuel n : Nat) (h : ¬ n < 10) :
    natToDecAux (fuel + 1) n = natToDecAux fuel (n / 10) ++ [digitChar (n % 10)] := by
  simp [natToDecAux, h]

theorem natToDecAux_len2 (fuel n : Nat) (hf : 2 ≤ fuel) (h1 : 10 ≤ n)
    (h2 : n < 100) : (natToDecAux fuel n).length = 2 := by
  obtain ⟨f, rfl⟩ : ∃ f, fuel = f + 1 := ⟨fuel - 1, by omega⟩
  have hn : ¬ n < 10 := by omega
  rw [natToDecAux_succ f n hn, List.length_append,
    natToDecAux_len1 f (n / 10) (by omega) (by omega)]
  rfl

theorem natToDecAux_len3 (fuel n : Nat) (hf : 3 ≤ fuel) (h1 : 100 ≤ n)
    (h2 : n < 1000) : (natToDecAux fuel n).length = 3 := by
  obtain ⟨f, rfl⟩ : ∃ f, fuel = f + 1 := ⟨fuel - 1, by omega⟩
  have hn : ¬ n < 10 := by omega
  rw [natToDecAux_succ f n hn, List.length_append,
    natToDecAux_len2 f (n / 10) (by omega) (by omega) (by omega)]
  rfl

theorem natToDecAux_len4 (fuel n : Nat) (hf : 4 ≤ fuel) (h1 : 1000 ≤ n)
    (h2 : n < 10000) : (natToDecAux fuel n).length = 4 := by
  obtain ⟨f, rfl⟩ : ∃ f, fuel = f + 1 := ⟨fuel - 1, by omega⟩
  have hn : ¬ n < 10 := by omega
  rw [natToDecAux_succ f n hn, List.length_append,
    natToDecAux_len3 f (n / 10) (by omega) (by omega) (by omega)]
  rfl

theorem pad2Chars_len (n : Nat) (h : n < 100) : (pad2Chars n).length = 2 := by
  simp only [pad2Chars]
  by_cases h10 : n < 10
  · rw [natToDecAux_single n n h10]
    rfl
  · have hlen : (natToDecAux (n + 1) n).length = 2 :=
      natToDecAux_len2 (n + 1) n (by omega) (by omega) h
    rw [if_neg (by rw [hlen]; omega)]
    exact hlen

theorem stampChars_chars (d : JsDate) :
    ∀ c ∈ stampChars d, c.isDigit = true ∨ c = '-' := by
  intro c hc
  simp only [stampChars, List.append_assoc, List.mem_append] at hc
  rcases hc with h | h | h | h | h | h | h
  · exact Or.inl (natToDecAux_digits _ _ c h)
  · exact Or.inl (pad2Chars_digits _ c h)
  · exact Or.inl (pad2Chars_digits _ c h)
  · exact Or.inr (List.mem_singleton.mp h)
  · exact Or.inl (pad2Chars_digits _ c h)
  · exact Or.inl (pad2Chars_digits _ c h)
  · exact Or.inl (pad2Chars_digits _ c h)

/-- C6. The download filename `fill-in-blanks-${stamp()}.txt` is a pure
function of the `Date` it is built from, never contains a colon, and for
every date with a four-digit year its stamp is exactly
`YYYYMMDD-HHMMSS`: four year digits, two month digits, two day digits, a
hyphen, then two digits each for hours, minutes, seconds. -/
theorem saveFilename_safe :
    (∀ d : JsDate, ':' ∉ saveFilenameChars d) ∧
    (∀ d : JsDate, saveFilenameChars d =
        "fill-in-blanks-".data ++ stampChars d ++ ".txt".data) ∧
    (∀ d : JsDate, ValidDate d →
        (stampChars d).length = 15 ∧
        ∃ y mo dy hh mi ss : List Char,
          stampChars d = y ++ mo ++ dy ++ ['-'] ++ hh ++ mi ++ ss ∧
          y.length = 4 ∧ mo.length = 2 ∧ dy.length = 2 ∧ hh.length = 2 ∧
          mi.length = 2 ∧ ss.length = 2 ∧
          (∀ c, c ∈ y ++ mo ++ dy ++ hh ++ mi ++ ss → c.isDigit = true)) := by
  refine ⟨?_, fun d => rfl, ?_⟩
  · intro d hc
    simp only [saveFilenameChars, List.mem_append] at hc
    rcases hc with (h | h) | h
    · exact absurd h (by decide)
    · rcases stampChars_chars d ':' h with h1 | h1
      · exact isDigit_ne_colon ':' h1 rfl
      · exact absurd h1 (by decide)
    · exact absurd h (by decide)
  · intro d hd
    obtain ⟨hy1, hy2, hmo, hd1, hd2, hh, hmi, hs⟩ := hd
    have ly : (natToDecAux (d.year + 1) d.year).length = 4 :=
      natToDecAux_len4 (d.year + 1) d.year (by omega) hy1 (by omega)
    have lmo : (pad2Chars (d.month + 1)).length = 2 := pad2Chars_len _ (by omega)
    have ldy : (pad2Chars d.day).length = 2 := pad2Chars_len _ (by omega)
    have lhh : (pad2Chars d.hours).length = 2 := pad2Chars_len _ (by omega)
    have lmi : (pad2Chars d.minutes).length = 2 := pad2Chars_len _ (by omega)
    have lss : (pad2Chars d.seconds).length = 2 := pad2Chars_len _ (by omega)
    constructor
    · simp only [stampChars, List.length_append, ly, lmo, ldy, lhh, lmi, lss]
      rfl
    · refine ⟨natToDecAux (d.year + 1) d.year, pad2Chars (d.month + 1),
        pad2Chars d.day, pad2Chars d.hours, pad2Chars d.minutes,
        pad2Chars d.seconds, rfl, ly, lmo, ldy, lhh, lmi, lss, ?_⟩
      intro c hc
      simp only [List.mem_append] at hc
      rcases hc with ((((h | h) | h) | h) | h) | h
      · exact natToDecAux_digits _ _ c h
      · exact pad2Chars_digits _ c h
      · exact pad2Chars_digits _ c h
      · exact pad2Chars_digits _ c h
      · exact pad2Chars_digits _ c h
      · exact pad2Chars_digits _ c h

/-- Witness for C6 at the date 2024-01-05 09:03:07. -/
theorem saveFilename_safe_witness :
    ValidDate ⟨2024, 0, 5, 9, 3, 7⟩ ∧
      ((stampChars ⟨2024, 0, 5, 9, 3, 7⟩).length = 15 ∧
        ∃ y mo dy hh mi ss : List Char,
          stampChars ⟨2024, 0, 5, 9, 3, 7⟩ =
            y ++ mo ++ dy ++ ['-'] ++ hh ++ mi ++ ss ∧
          y.length = 4 ∧ mo.length = 2 ∧ dy.length = 2 ∧ hh.length = 2 ∧
          mi.length = 2 ∧ ss.length = 2 ∧
          (∀ c, c ∈ y ++ mo ++ dy ++ hh ++ mi ++ ss → c.isDigit = true)) :=
  ⟨by constructor <;> norm_num [ValidDate],
    saveFilename_safe.2.2 ⟨2024, 0, 5, 9, 3, 7⟩
      (by constructor <;> norm_num [ValidDate])⟩

/-! ### Whitespace normalization and composeLine -/

theorem head_dropWhile_not (l : List Char) :
    ∀ c, ((l.dropWhile isJsWs).head? = some c) → isJsWs c = false := by
  induction l with
  | nil => intro c hc; simp at hc
  | cons a rest ih =>
      intro c hc
      by_cases ha : isJsWs a
      · rw [List.dropWhile_cons_of_pos ha] at hc
        exact ih c hc
      · rw [List.dropWhile_cons_of_neg ha] at hc
        have : a = c := by simpa using hc
        rw [← this]
        exact Bool.eq_false_iff.mpr ha

theorem collapseWs_head_not (x : Char) (xs : List Char) (h : isJsWs x = false) :
    (collapseWs (x :: xs)).head? = some x := by
  cases xs with
  | nil => simp [collapseWs, h]
  | cons y ys => simp [collapseWs, h]

theorem collapseWs_chain' : ∀ (l : List Char),
    (collapseWs l).Chain' (fun a b => ¬(isJsWs a = true ∧ isJsWs b = true)) := by
  intro l
  induction l with
  | nil => simp [collapseWs]
  | cons a rest ih =>
      cases rest with
      | nil =>
          by_cases ha : isJsWs a = true <;> simp [collapseWs, ha]
      | cons b ys =>
          by_cases hab : (isJsWs a && isJsWs b) = true
          · have : collapseWs (a :: b :: ys) = collapseWs (b :: ys) := by
              simp [collapseWs, hab]
            rw [this]
            exact ih
          · have hab' : (isJsWs a && isJsWs b) = false :=
              Bool.eq_false_iff.mpr hab
            have : collapseWs (a :: b :: ys) =
                (if isJsWs a then ' ' else a) :: collapseWs (b :: ys) := by
              simp [collapseWs, hab']
            rw [this]
            refine List.chain'_cons'.mpr ⟨?_, ih⟩
            intro y hy hcontra
            by_cases ha : isJsWs a = true
            · have hb : isJsWs b = false := by
                rcases Bool.and_eq_false_iff.mp hab' with h1 | h1
                · rw [ha] at h1; exact absurd h1 (by decide)
                · exact h1
              have hhead := collapseWs_head_not b ys hb
              rw [hhead] at hy
              have hyb : b = y := by simpa using hy
              rw [← hyb, hb] at hcontra
              exact Bool.false_ne_true hcontra.2
            · have ha' : isJsWs a = false := Bool.eq_false_iff.mpr ha
              rw [if_neg (by simp [ha']), ha'] at hcontra
              exact Bool.false_ne_true hcontra.1

theorem trimWs_chain' (R : Char → Char → Prop) (hsym : ∀ a b, R a b → R b a)
    (l : List Char) (h : l.Chain' R) : (trimWs l).Chain' R := by
  have h1 : (l.dropWhile isJsWs).Chain' R := by
    have hsuf : l.dropWhile isJsWs <:+ l := List.dropWhile_suffix isJsWs
    obtain ⟨t, ht⟩ := hsuf
    rw [← ht] at h
    exact h.right_of_append
  have h2 : ((l.dropWhile isJsWs).reverse).Chain' R :=
    List.chain'_reverse.mpr (h1.imp fun a b hab => hsym a b hab)
  have h3 : ((l.dropWhile isJsWs).reverse.dropWhile isJsWs).Chain' R := by
    have hsuf : (l.dropWhile isJsWs).reverse.dropWhile isJsWs <:+
        (l.dropWhile isJsWs).reverse := List.dropWhile_suffix isJsWs
    obtain ⟨t, ht⟩ := hsuf
    rw [← ht] at h2
    exact h2.right_of_append
  exact List.chain'_reverse.mpr (h3.imp fun a b hab => hsym a b hab)

theorem trimWs_head (l : List Char) (c : Char)
    (h : (trimWs l).head? = some c) : isJsWs c = false := by
  have hsuf : ((l.dropWhile isJsWs).reverse.dropWhile isJsWs) <:+
      (l.dropWhile isJsWs).reverse := List.dropWhile_suffix _
  have hpre : trimWs l <+: (l.dropWhile isJsWs).reverse.reverse :=
    List.reverse_prefix.mpr hsuf
  rw [List.reverse_reverse] at hpre
  obtain ⟨t, ht⟩ := hpre
  cases hxx : trimWs l with
  | nil => rw [hxx] at h; simp at h
  | cons c0 rest0 =>
      rw [hxx] at h ht
      have hc0 : c0 = c := by simpa using h
      have hm : (l.dropWhile isJsWs).head? = some c0 := by
        rw [← ht]; rfl
      rw [← hc0]
      exact head_dropWhile_not l c0 hm

theorem trimWs_last (l : List Char) (c : Char)
    (h : (trimWs l).getLast? = some c) : isJsWs c = false := by
  have hh : ((l.dropWhile isJsWs).reverse.dropWhile isJsWs).head? = some c := by
    rw [← List.getLast?_reverse]
    exact h
  exact head_dropWhile_not (l.dropWhile isJsWs).reverse c hh

theorem joinNormalize_chain' (parts : List String) :
    ((joinNormalize parts).data).Chain'
      (fun a b => ¬(isJsWs a = true ∧ isJsWs b = true)) :=
  trimWs_chain' _ (fun _ _ hab hba => hab ⟨hba.2, hba.1⟩) _ (collapseWs_chain' _)

theorem joinNormalize_head (parts : List String) (c : Char)
    (h : ((joinNormalize parts).data).head? = some c) : isJsWs c = false :=
  trimWs_head _ c h

theorem joinNormalize_last (parts : List String) (c : Char)
    (h : ((joinNormalize parts).data).getLast? = some c) : isJsWs c = false :=
  trimWs_last _ c h

/-- C9. `composeLine` is a pure function of the current field values (states
agreeing on `inputs` compose identically, so composing twice with no
intervening edit gives the same string), and its output is
whitespace-normalized: no two adjacent whitespace characters, and neither a
leading nor a trailing whitespace character. -/
theorem composeLine_pure_normalized :
    (∀ (st st2 : SyncState) (i : Nat), st.inputs = st2.inputs →
        composeLine st i = composeLine st2 i) ∧
    (∀ (st : SyncState) (i : Nat),
        ((composeLine st i).data.Chain'
          fun a b => ¬(isJsWs a = true ∧ isJsWs b = true)) ∧
        (∀ c, (composeLine st i).data.head? = some c → isJsWs c = false) ∧
        (∀ c, (composeLine st i).data.getLast? = some c → isJsWs c = false)) := by
  constructor
  · intro st st2 i h
    simp only [composeLine, valueAt, h]
  · intro st i
    have hdef : composeLine st i = joinNormalize [(segments i).getD 0 "",
        valueAt st i 0, (segments i).getD 1 "", valueAt st i 1,
        (segments i).getD 2 "", valueAt st i 2, (segments i).getD 3 ""] := rfl
    rw [hdef]
    generalize ([(segments i).getD 0 "", valueAt st i 0, (segments i).getD 1 "",
      valueAt st i 1, (segments i).getD 2 "", valueAt st i 2,
      (segments i).getD 3 ""] : List String) = parts
    exact ⟨joinNormalize_chain' parts,
      fun c hc => joinNormalize_head parts c hc,
      fun c hc => joinNormalize_last parts c hc⟩

/-- Witness for C9: two states with the same field values but different
focus compose the same first line. -/
theorem composeLine_pure_normalized_witness :
    (SyncState.inputs ⟨fun _ _ => some "word", none⟩ =
        SyncState.inputs ⟨fun _ _ => some "word", some (0, 0)⟩) ∧
      composeLine ⟨fun _ _ => some "word", none⟩ 0 =
        composeLine ⟨fun _ _ => some "word", some (0, 0)⟩ 0 :=
  ⟨rfl, composeLine_pure_normalized.1 ⟨fun _ _ => some "word", none⟩
    ⟨fun _ _ => some "word", some (0, 0)⟩ 0 rfl⟩

/-! ### Per-line suggestion draws: disjointness and the cap trim -/

theorem pickLoop_succ (arr : List String) (count : Nat) (rand : Nat → Nat)
    (rem : Nat) (chosen seen : List String) :
    pickLoop arr count rand (rem + 1) chosen seen =
      if chosen.length < count then
        (if arr.getD (rand (count * 30 - (rem + 1))) "" ∈ seen then
          pickLoop arr count rand rem chosen seen
         else pickLoop arr count rand rem
           (chosen ++ [arr.getD (rand (count * 30 - (rem + 1))) ""])
           (seen ++ [arr.getD (rand (count * 30 - (rem + 1))) ""]))
      else chosen := rfl

theorem pickLoop_spec (arr : List String) (count : Nat) (rand : Nat → Nat) :
    ∀ (rem : Nat) (chosen seen : List String),
      ∃ added : List String,
        pickLoop arr count rand rem chosen seen = chosen ++ added ∧
        (∀ w ∈ added, w ∉ seen) ∧ added.Nodup ∧
        (chosen ++ added).length ≤ max chosen.length count := by
  intro rem
  induction rem with
  | zero =>
      intro chosen seen
      exact ⟨[], by simp [pickLoop], by simp, List.nodup_nil,
        by simp [Nat.le_max_left]⟩
  | succ rem ih =>
      intro chosen seen
      rw [pickLoop_succ]
      by_cases hlen : chosen.length < count
      · rw [if_pos hlen]
        by_cases hw : arr.getD (rand (count * 30 - (rem + 1))) "" ∈ seen
        · rw [if_pos hw]
          exact ih chosen seen
        · rw [if_neg hw]
          obtain ⟨added2, h1, h2, h3, h4⟩ :=
            ih (chosen ++ [arr.getD (rand (count * 30 - (rem + 1))) ""])
              (seen ++ [arr.getD (rand (count * 30 - (rem + 1))) ""])
          refine ⟨arr.getD (rand (count * 30 - (rem + 1))) "" :: added2,
            ?_, ?_, ?_, ?_⟩
          · rw [h1, List.append_assoc]
            rfl
          · intro x hx
            rcases List.mem_cons.mp hx with rfl | hx2
            · exact hw
            · intro hxs
              exact h2 x hx2 (List.mem_append_left _ hxs)
          · refine List.nodup_cons.mpr ⟨?_, h3⟩
            intro hmem
            exact h2 _ hmem
              (List.mem_append_right _ (List.mem_singleton.mpr rfl))
          · have h5 : (chosen ++ arr.getD (rand (count * 30 - (rem + 1))) ""
                :: added2).length =
                ((chosen ++ [arr.getD (rand (count * 30 - (rem + 1))) ""]) ++
                  added2).length := by
              rw [List.append_assoc]
              rfl
            rw [h5]
            have h6 : (chosen ++
                [arr.getD (rand (count * 30 - (rem + 1))) ""]).length =
                chosen.length + 1 := by
              simp
            rw [h6] at h4
            simp only [List.length_append] at h4 ⊢
            omega
      · rw [if_neg hlen]
        exact ⟨[], by simp, by simp, List.nodup_nil, by simp⟩

theorem pickUniqueRandom_spec (arr : List String) (count : Nat)
    (exclude : List String) (rand : Nat → Nat) :
    (∀ w ∈ pickUniqueRandom arr count exclude rand, w ∉ exclude) ∧
    (pickUniqueRandom arr count exclude rand).Nodup ∧
    (pickUniqueRandom arr count exclude rand).length ≤ count := by
  obtain ⟨added, h1, h2, h3, h4⟩ :=
    pickLoop_spec arr count rand (count * 30) [] exclude
  have hpick : pickUniqueRandom arr count exclude rand = added := by
    rw [pickUniqueRandom, h1]
    rfl
  rw [hpick]
  refine ⟨h2, h3, ?_⟩
  simpa using h4

theorem foldl_setAdd_of_disjoint :
    ∀ (l s : List String), l.Nodup → (∀ w ∈ l, w ∉ s) →
      l.foldl setAdd s = s ++ l := by
  intro l
  induction l with
  | nil => intro s _ _; simp
  | cons a xs ih =>
      intro s hnd hdisj
      have ha : a ∉ s := hdisj a (List.mem_cons_self a xs)
      have hstep : setAdd s a = s ++ [a] := by
        rw [setAdd, if_neg ha]
      simp only [List.foldl_cons, hstep]
      rw [ih (s ++ [a]) (List.nodup_cons.mp hnd).2 ?_]
      · rw [List.append_assoc]
        rfl
      · intro w hw
        intro hmem
        rcases List.mem_append.mp hmem with hmem1 | hmem1
        · exact hdisj w (List.mem_cons_of_mem a hw) hmem1
        · rcases List.mem_singleton.mp hmem1 with rfl
          exact (List.nodup_cons.mp hnd).1 hw

theorem foldl_erase_take :
    ∀ (l : List String), l.Nodup → ∀ k : Nat,
      (l.take k).foldl (fun t w => t.erase w) l = l.drop k := by
  intro l
  induction l with
  | nil => intro _ k; simp
  | cons a xs ih =>
      intro hnd k
      cases k with
      | zero => simp
      | succ k =>
          rw [List.take_succ_cons, List.foldl_cons]
          have herase : (a :: xs).erase a = xs := List.erase_cons_head a xs
          rw [herase]
          rw [ih (List.nodup_cons.mp hnd).2 k]
          rfl

theorem trimExclude_eq_drop (s : List String) (hnd : s.Nodup)
    (h : 300 < s.length) : trimExclude s = s.drop 120 := by
  rw [trimExclude, if_pos h]
  exact foldl_erase_take s hnd 120

theorem trimExclude_eq_self (s : List String) (h : ¬ 300 < s.length) :
    trimExclude s = s := by
  rw [trimExclude, if_neg h]

theorem renderRows_succ (arr : List String) (rand : Nat → Nat → Nat) (n : Nat)
    (exclude : List String) :
    renderRows arr rand (n + 1) exclude =
      pickUniqueRandom arr NOUNS_PER_LINE exclude (rand (LINES - (n + 1))) ::
        renderRows arr rand n (trimExclude
          ((pickUniqueRandom arr NOUNS_PER_LINE exclude
            (rand (LINES - (n + 1)))).foldl setAdd exclude)) := rfl

theorem renderRows_inv (arr : List String) (rand : Nat → Nat → Nat) :
    ∀ (n : Nat) (exclude : List String),
      exclude.length + NOUNS_PER_LINE * n ≤ 300 →
      (∀ line ∈ renderRows arr rand n exclude, ∀ w ∈ line, w ∉ exclude) ∧
      (renderRows arr rand n exclude).Pairwise List.Disjoint := by
  intro n
  induction n with
  | zero =>
      intro exclude _
      exact ⟨by intro line h; simp [renderRows] at h, by simp [renderRows]⟩
  | succ n ih =>
      intro exclude hlen
      rw [renderRows_succ]
      generalize hpick : pickUniqueRandom arr NOUNS_PER_LINE exclude
        (rand (LINES - (n + 1))) = list
      obtain ⟨hdisj, hnd, hcnt⟩ := pickUniqueRandom_spec arr NOUNS_PER_LINE
        exclude (rand (LINES - (n + 1)))
      rw [hpick] at hdisj hnd hcnt
      have hlen10 : NOUNS_PER_LINE = 10 := rfl
      rw [hlen10] at hlen hcnt
      have hfold : list.foldl setAdd exclude = exclude ++ list :=
        foldl_setAdd_of_disjoint list exclude hnd hdisj
      have htrim : trimExclude (list.foldl setAdd exclude) = exclude ++ list := by
        rw [hfold]
        exact trimExclude_eq_self _ (by rw [List.length_append]; omega)
      have hrec := ih (exclude ++ list)
        (by rw [List.length_append, hlen10]; omega)
      rw [htrim]
      constructor
      · intro line hline w hw
        rcases List.mem_cons.mp hline with rfl | hline2
        · exact hdisj w hw
        · intro hmem
          exact hrec.1 line hline2 w hw (List.mem_append_left _ hmem)
      · refine List.pairwise_cons.mpr ⟨?_, hrec.2⟩
        intro l2 hl2 w hwpick hwl2
        exact hrec.1 l2 hl2 w hwl2 (List.mem_append_right _ hwpick)

/-- C7. With `NOUNS_PER_LINE = 10` and `LINES = 30`, the whole render covers
exactly the first `ceil(300 / perLine) = 30` lines, and the suggestion lists
drawn for them are pairwise disjoint (the rolling exclusion set never
exceeds the 300 cap in that window, whatever the randomness oracle); and
whenever the exclusion set does exceed 300 entries, the cap trim removes
exactly its oldest 120 entries in insertion order, releasing them back into
eligibility. -/
theorem renderAllNounRows_disjoint_and_trim :
    (∀ (poolArray : List String) (rand : Nat → Nat → Nat),
        (renderAllNounRows poolArray rand).Pairwise List.Disjoint) ∧
    (∀ s : List String, s.Nodup → 300 < s.length → trimExclude s = s.drop 120) := by
  constructor
  · intro poolArray rand
    exact (renderRows_inv poolArray rand LINES [] (by norm_num [LINES, NOUNS_PER_LINE])).2
  · exact trimExclude_eq_drop

/-- Witness for C7's trim clause: a 301-element duplicate-free exclusion
list is trimmed to exactly its last 181 entries, dropping the oldest 120. -/
theorem renderAllNounRows_disjoint_and_trim_witness :
    ((List.range 301).map (fun n => String.mk (List.replicate n 'a'))).Nodup ∧
      trimExclude ((List.range 301).map
          (fun n => String.mk (List.replicate n 'a'))) =
        ((List.range 301).map (fun n => String.mk (List.replicate n 'a'))).drop
          120 := by
  have hinj : Function.Injective (fun n : Nat => String.mk (List.replicate n 'a')) := by
    intro a b hab
    have h1 : List.replicate a 'a' = List.replicate b 'a' :=
      congrArg String.data hab
    have h2 := congrArg List.length h1
    simpa using h2
  have hnd : ((List.range 301).map
      (fun n => String.mk (List.replicate n 'a'))).Nodup :=
    (List.nodup_range 301).map hinj
  exact ⟨hnd, renderAllNounRows_disjoint_and_trim.2 _ hnd (by simp)⟩

end FillInTheBlank
